import Mathlib

/-!
Shallow embedding of `libptmalloc/frontend/commands/gdb/ptmeta.py`: the
metadata store (`meta_cache`), the backtrace ignore set
(`backtrace_ignore`), the query engine (`get_metadata`, `get_functions`,
`get_first_function`) and the mutators (`add_metadata`, `delete_metadata`,
`configure_metadata`), together with a session-level step relation covering
the command actions (including the development-only snapshot load).

Python dicts preserve insertion order, so records and the store are
association lists with dict-style insert (update in place, append if new).
Python `None` and the heterogeneous values stored in a record are the
`PyVal` inductive. A raised Python exception is `Except.error ()`; a
function that returns `None` meaningfully returns `Except.ok none`.
-/

deriving instance DecidableEq for Except

/-- The heterogeneous values a record field can hold in the Python code:
`None` (stored by `add` when no value argument is given), a plain string,
a list of function-name strings (appended to the structured output by the
backtrace branch), or the backtrace capture dict `{"raw": .., "funcs": ..}`
produced by `self.dbg.get_backtrace()`. -/
inductive PyVal where
  | noneV : PyVal
  | strV (s : String) : PyVal
  | listV (xs : List String) : PyVal
  | dictV (raw : String) (funcs : List String) : PyVal
deriving DecidableEq, Repr

/-- A record: the ordered field map attached to one chunk address
(`meta_cache[address]`). -/
abbrev Record := List (String × PyVal)

/-- The store: `meta_cache`, an ordered mapping address -> record. -/
abbrev MetaCache := List (Nat × Record)

/-- Python dict lookup `d[k]` / `k in d` on an association list: the value
at the first matching key, if any. -/
def alookup {α β : Type} [DecidableEq α] (k : α) : List (α × β) → Option β
  | [] => none
  | (a, b) :: rest => if k = a then some b else alookup k rest

/-- Python dict assignment `d[k] = v`: update the first matching binding in
place (keeping its position), or append a new binding at the end. -/
def dictInsert {α β : Type} [DecidableEq α] (k : α) (v : β) : List (α × β) → List (α × β)
  | [] => [(k, v)]
  | (a, b) :: rest => if k = a then (a, v) :: rest else (a, b) :: dictInsert k v rest

/-- Python `del d[k]`: drop the first matching binding. -/
def dictRemove {α β : Type} [DecidableEq α] (k : α) : List (α × β) → List (α × β)
  | [] => []
  | (a, b) :: rest => if k = a then rest else (a, b) :: dictRemove k rest

/-- The 16 keys of `colorize_table` (the values are the `printutils`
color-formatting collaborators; only the key set and which formatter is
selected matter here). -/
def colorize_table : List String :=
  ["red", "green", "yellow", "blue", "purple", "cyan", "gray",
   "lightred", "lightgreen", "lightyellow", "lightblue", "lightpurple",
   "lightcyan", "lightgray", "white", "black"]

/-- The colorize function returned by `get_metadata`: either the default
`str` (identity, no colorizing) or the `colorize_table` entry for a palette
name. -/
inductive Colorizer where
  | ident : Colorizer
  | colored (name : String) : Colorizer
deriving DecidableEq, Repr

/-- Python `s.split(":")` on the underlying characters: split into the
(possibly empty) maximal groups between colons. -/
def splitChars : List Char → List (List Char)
  | [] => [[]]
  | c :: cs =>
    if c = ':' then [] :: splitChars cs
    else
      match splitChars cs with
      | [] => [[c]]
      | g :: gs => (c :: g) :: gs

/-- `key.split(":")` as a list of strings. -/
def splitKeyParts (k : String) : List String :=
  (splitChars k.data).map List.asString

/-- The spec-splitting prelude of the `get_metadata` loop:
`if ":" in key: key, param = key.split(":")`. No colon leaves the key
as is with no parameter; exactly one colon yields key and parameter;
two or more colons make the tuple unpacking raise `ValueError`. -/
def splitKey (k : String) : Except Unit (String × Option String) :=
  match splitKeyParts k with
  | [_] => .ok (k, none)
  | [a, b] => .ok (a, some b)
  | _ => .error ()

/-- Digit-string to number, as Python `int()` does for a plain run of
decimal digits; `none` when empty or not all digits. -/
def digitsToNat (l : List Char) : Option Nat :=
  if l ≠ [] ∧ l.all Char.isDigit then
    some (l.foldl (fun acc c => acc * 10 + (c.toNat - 48)) 0)
  else none

/-- `int(param)` on the canonical numerals that reach it (an optional sign
followed by decimal digits); `none` models the raised `ValueError`. -/
def parsePyInt (s : String) : Option Int :=
  match s.data with
  | '-' :: ds => (digitsToNat ds).map (fun n => -(n : Int))
  | '+' :: ds => (digitsToNat ds).map (fun n => (n : Int))
  | ds => (digitsToNat ds).map (fun n => (n : Int))

/-- Python `"%s" % value` for the values reachable here: strings render
verbatim, `None` renders as `"None"`, containers in `repr` style (their
rendering is never exercised by the add-path, which stores only strings,
`None`, and the backtrace dict consumed field-wise). -/
def pyStr : PyVal → String
  | .noneV => "None"
  | .strV s => s
  | .listV xs =>
    "[" ++ String.intercalate ", " (xs.map (fun s => "'" ++ s ++ "'")) ++ "]"
  | .dictV raw funcs =>
    "\x7b'raw': '" ++ raw ++ "', 'funcs': ['"
      ++ String.intercalate "', '" funcs ++ "']\x7d"

/-- The accumulation loop of `get_functions`: append every function name
not in `backtrace_ignore`, breaking once the accumulated length equals
`max_len` (`n` is the length accumulated so far). A `max_len` of `None`,
or any integer never reached by a positive length, never breaks. -/
def funcsLoop (ignore : Finset String) (max_len : Option Int) : List String → Nat → List String
  | [], _ => []
  | f :: fs, n =>
    if f ∈ ignore then funcsLoop ignore max_len fs n
    else if max_len = some ((n + 1 : Nat) : Int) then [f]
    else f :: funcsLoop ignore max_len fs (n + 1)

/-- `get_functions(address, max_len)`: `None` when the address has no
record or the record has no `"backtrace"` field; otherwise the filtered,
possibly truncated list of `meta_cache[address]["backtrace"]["funcs"]`.
A non-dict value under `"backtrace"` makes the subscript raise. -/
def get_functions (cache : MetaCache) (ignore : Finset String) (address : Nat)
    (max_len : Option Int) : Except Unit (Option (List String)) :=
  match alookup address cache with
  | none => .ok none
  | some record =>
    match alookup "backtrace" record with
    | none => .ok none
    | some (.dictV _ funcs) => .ok (some (funcsLoop ignore max_len funcs 0))
    | some _ => .error ()

/-- `get_first_function(address)` = `get_functions(address, max_len=1)`. -/
def get_first_function (cache : MetaCache) (ignore : Finset String) (address : Nat) :
    Except Unit (Option (List String)) :=
  get_functions cache ignore address (some 1)

/-- The mutable accumulators of the `get_metadata` loop. -/
structure QState where
  L : List PyVal
  suffix : String
  epilog : String
  colorize : Colorizer
  opened : Bool
deriving DecidableEq, Repr

/-- The quadruple returned by `get_metadata`: structured list (`None` when
the address is unknown), one-line suffix, verbose epilog, colorize
function. -/
structure QueryOut where
  L : Option (List PyVal)
  suffix : String
  epilog : String
  colorize : Colorizer
deriving DecidableEq, Repr

/-- `L.append(funcs_list)`: a `None` resolver result appends `None`,
otherwise the list itself. -/
def pyOfFuncs : Option (List String) → PyVal
  | none => .noneV
  | some fs => .listV fs

/-- The body of one `get_metadata` loop iteration after the `:param`
split: dispatch on whether the key is on the record and on
`"backtrace"` / `"color"` / plain. -/
def processKeyCore (cache : MetaCache) (ignore : Finset String) (address : Nat)
    (record : Record) (key : String) (param : Option String) (st : QState) :
    Except Unit QState :=
  match alookup key record with
    | none =>
      if key = "color" then .ok st
      else
        .ok ⟨st.L ++ [.noneV], st.suffix ++ " | N/A",
             st.epilog ++ "'" ++ key ++ "' key not found in metadata database\n",
             st.colorize, true⟩
    | some v =>
      if key = "backtrace" then
        match v with
        | .dictV raw _ =>
          match
            (match param with
             | none => get_first_function cache ignore address
             | some p =>
               match parsePyInt p with
               | none => .error ()
               | some m => get_functions cache ignore address (some m)) with
          | .error e => .error e
          | .ok funcs_list =>
            .ok ⟨st.L ++ [pyOfFuncs funcs_list],
                 (match funcs_list with
                  | none => st.suffix ++ " | N/A"
                  | some [] => st.suffix ++ " | filtered"
                  | some fs => st.suffix ++ " | " ++ String.intercalate "," fs),
                 st.epilog ++ raw, st.colorize, true⟩
        | _ => .error ()
      else if key = "color" then
        match v with
        | .strV c =>
          if c ∈ colorize_table then .ok { st with colorize := .colored c }
          else .error ()
        | _ => .error ()
      else
        .ok ⟨st.L ++ [v], st.suffix ++ " | " ++ pyStr v,
             st.epilog ++ pyStr v ++ "\n", st.colorize, true⟩

/-- One iteration of the `for key in list_metadata` loop of
`get_metadata`: `if ":" in key: key, param = key.split(":")`, then the
dispatch body. -/
def processKey (cache : MetaCache) (ignore : Finset String) (address : Nat)
    (record : Record) (spec : String) (st : QState) : Except Unit QState :=
  match splitKey spec with
  | .error e => .error e
  | .ok (key, param) => processKeyCore cache ignore address record key param st

/-- The whole `for key in list_metadata` loop. -/
def processKeys (cache : MetaCache) (ignore : Finset String) (address : Nat)
    (record : Record) : List String → QState → Except Unit QState
  | [], st => .ok st
  | k :: ks, st =>
    match processKey cache ignore address record k st with
    | .error e => .error e
    | .ok st' => processKeys cache ignore address record ks st'

/-- The `list_metadata` argument of `get_metadata`: either the literal
string `"all"`, or a list of field specs. -/
inductive ListMetadataArg where
  | allSentinel : ListMetadataArg
  | specs (l : List String) : ListMetadataArg
deriving DecidableEq, Repr

/-- `get_metadata(address, list_metadata)`: the quadruple
`(L, suffix, epilog, colorize_func)`. An unknown address short-circuits to
`(None, "", "chunk address not found in metadata database\n", str)`. The
`"all"` sentinel expands to the record's keys in discovery order, with
`"backtrace"` removed and `"backtrace:-1"` appended. A trailing `" |"`
closes the suffix when anything was opened. -/
def get_metadata (cache : MetaCache) (ignore : Finset String) (address : Nat)
    (list_metadata : ListMetadataArg) : Except Unit QueryOut :=
  match alookup address cache with
  | none => .ok ⟨none, "", "chunk address not found in metadata database\n", .ident⟩
  | some record =>
    let keys : List String :=
      match list_metadata with
      | .allSentinel =>
        let ks := record.map Prod.fst
        if "backtrace" ∈ ks then ks.erase "backtrace" ++ ["backtrace:-1"] else ks
      | .specs l => l
    match processKeys cache ignore address record keys ⟨[], "", "", .ident, false⟩ with
    | .error e => .error e
    | .ok st =>
      .ok ⟨some st.L, if st.opened then st.suffix ++ " |" else st.suffix,
           st.epilog, st.colorize⟩

/-- The process-wide mutable state of the command: `meta_cache` and
`backtrace_ignore`. -/
structure Session where
  meta_cache : MetaCache
  backtrace_ignore : Finset String
deriving DecidableEq

/-- `add_metadata(address, key, value)`. The `value` is optional in the
argument parser (`nargs="?"`), so a missing value arrives as `None`.
`"backtrace"` stores the capture dict from the Debugger collaborator
(passed in as `dbgBacktrace`); `"color"` validates against
`colorize_table` and reports an error (returning `false`, no mutation) on
a non-palette or missing value; anything else stores the value (possibly
`None`) verbatim, creating the record if absent. -/
def add_metadata (dbgBacktrace : String × List String) (s : Session) (address : Nat)
    (key : String) (value : Option String) : Session × Bool :=
  let result? : Option PyVal :=
    if key = "backtrace" then some (.dictV dbgBacktrace.1 dbgBacktrace.2)
    else if key = "color" then
      match value with
      | some v => if v ∈ colorize_table then some (.strV v) else none
      | none => none
    else
      some (match value with | some v => .strV v | none => .noneV)
  match result? with
  | none => (s, false)
  | some result =>
    let oldrec := (alookup address s.meta_cache).getD []
    ({ s with meta_cache := dictInsert address (dictInsert key result oldrec) s.meta_cache },
     true)

/-- `delete_metadata(address)`: remove the record if present, no-op
otherwise. -/
def delete_metadata (s : Session) (address : Nat) : Session :=
  match alookup address s.meta_cache with
  | none => s
  | some _ => { s with meta_cache := dictRemove address s.meta_cache }

/-- `configure_metadata(feature, key, values)`: only
`(feature="ignore", key="backtrace")` updates `backtrace_ignore` (set
union); any other combination prints a warning (returning `false`) and
mutates nothing. The code tests `key` first, then `feature`. -/
def configure_metadata (s : Session) (feature : String) (key : String)
    (values : List String) : Session × Bool :=
  if key = "backtrace" then
    if feature = "ignore" then
      ({ s with backtrace_ignore := s.backtrace_ignore ∪ values.toFinset }, true)
    else (s, false)
  else (s, false)

/-- One invocation of the `ptmeta` command, as dispatched by `invoke`:
`add` (with the Debugger capture it would use), `del`, `config`, `list`
(read-only), and the development-only snapshot `-S` (save, read-only) and
`-L` (load, which `load_metadata_from_file` implements by replacing both
`meta_cache` and `backtrace_ignore` with the file's contents). -/
inductive Op where
  | addOp (dbgBacktrace : String × List String) (address : Nat) (key : String)
      (value : Option String) : Op
  | delOp (address : Nat) : Op
  | configOp (feature : String) (key : String) (values : List String) : Op
  | listOp : Op
  | saveOp : Op
  | loadOp (saved : Session) : Op

/-- The session-state transition of one command invocation. -/
def step (s : Session) : Op → Session
  | .addOp dbg a k v => (add_metadata dbg s a k v).1
  | .delOp a => delete_metadata s a
  | .configOp f k vs => (configure_metadata s f k vs).1
  | .listOp => s
  | .saveOp => s
  | .loadOp saved => saved

/-- Modelled from the spec (for comparison with the code): "filters
`frames` by dropping every entry present in IgnoreSet, preserving original
relative order, then truncates to the first `maxFrames` entries
(`maxFrames = unlimited` [-1] means no truncation)". -/
def resolveSpec (ignore : Finset String) (frames : List String) (maxFrames : Int) :
    List String :=
  let filtered := frames.filter (fun f => decide (f ∉ ignore))
  if maxFrames = -1 then filtered else filtered.take maxFrames.toNat

/-- Modelled from the spec (for comparison with the code): the structured
list that `query(a, "all")` is claimed to return — "exactly the fields
present on `a`'s record, in first-insertion (discovery) order, with any
backtrace field resolved without truncation". -/
def claimAllL (ignore : Finset String) (record : Record) : List PyVal :=
  record.map (fun kv =>
    if kv.1 = "backtrace" then
      match kv.2 with
      | .dictV _ funcs => PyVal.listV (funcs.filter (fun f => decide (f ∉ ignore)))
      | v => v
    else kv.2)

/-! ## Basic lemmas about the dict embedding -/

theorem alookup_cons_ne {α β : Type} [DecidableEq α] {k a : α} (b : β) (l : List (α × β))
    (h : k ≠ a) : alookup k ((a, b) :: l) = alookup k l := by
  simp [alookup, h]

theorem alookup_dictInsert_self {α β : Type} [DecidableEq α] (k : α) (v : β)
    (l : List (α × β)) : alookup k (dictInsert k v l) = some v := by
  induction l with
  | nil => simp [dictInsert, alookup]
  | cons hd tl ih =>
    obtain ⟨a, b⟩ := hd
    by_cases h : k = a
    · subst h; simp [dictInsert, alookup]
    · simp [dictInsert, alookup, h, ih]

theorem alookup_mem {α β : Type} [DecidableEq α] {k : α} {v : β} {l : List (α × β)}
    (h : alookup k l = some v) : (k, v) ∈ l := by
  induction l with
  | nil => simp [alookup] at h
  | cons hd tl ih =>
    obtain ⟨a, b⟩ := hd
    by_cases hk : k = a
    · subst hk
      have h' : b = v := by simpa [alookup] using h
      subst h'
      exact List.mem_cons_self _ _
    · rw [alookup_cons_ne _ _ hk] at h
      exact List.mem_cons_of_mem _ (ih h)

theorem alookup_isSome_of_mem_keys {α β : Type} [DecidableEq α] {k : α} {l : List (α × β)}
    (h : k ∈ l.map Prod.fst) : ∃ v, alookup k l = some v := by
  induction l with
  | nil => simp at h
  | cons hd tl ih =>
    obtain ⟨a, b⟩ := hd
    by_cases hk : k = a
    · subst hk; exact ⟨b, by simp [alookup]⟩
    · rw [alookup_cons_ne _ _ hk]
      apply ih
      simpa [hk] using h

theorem alookup_eq_none_of_not_mem_keys {α β : Type} [DecidableEq α] {k : α}
    {l : List (α × β)} (h : k ∉ l.map Prod.fst) : alookup k l = none := by
  induction l with
  | nil => rfl
  | cons hd tl ih =>
    obtain ⟨a, b⟩ := hd
    simp only [List.map_cons, List.mem_cons] at h
    push_neg at h
    rw [alookup_cons_ne _ _ h.1]
    exact ih h.2

/-! ## The `key.split(":")` prelude -/

theorem splitChars_no_colon {l : List Char} (h : ':' ∉ l) : splitChars l = [l] := by
  induction l with
  | nil => rfl
  | cons c cs ih =>
    simp only [List.mem_cons] at h
    push_neg at h
    have hc : ¬(c = ':') := fun he => h.1 he.symm
    rw [splitChars, if_neg hc, ih h.2]

theorem splitKey_no_colon {k : String} (h : ':' ∉ k.data) : splitKey k = .ok (k, none) := by
  unfold splitKey splitKeyParts
  rw [splitChars_no_colon h]
  rfl

/-! ## The `get_functions` accumulation loop -/

theorem funcsLoop_no_max (ignore : Finset String) (funcs : List String) (n : Nat) :
    funcsLoop ignore none funcs n = funcs.filter (fun f => decide (f ∉ ignore)) := by
  induction funcs generalizing n with
  | nil => rfl
  | cons f fs ih =>
    by_cases hf : f ∈ ignore <;>
      simp [funcsLoop, hf, List.filter_cons, ih]

theorem funcsLoop_nonpos {m : Int} (hm : m ≤ 0) (ignore : Finset String)
    (funcs : List String) (n : Nat) :
    funcsLoop ignore (some m) funcs n = funcs.filter (fun f => decide (f ∉ ignore)) := by
  induction funcs generalizing n with
  | nil => rfl
  | cons f fs ih =>
    have hne : ¬(some m = some ((n + 1 : Nat) : Int)) := by
      simp only [Option.some.injEq]
      omega
    by_cases hf : f ∈ ignore
    · simp only [funcsLoop, if_pos hf, List.filter_cons]
      rw [ih]
      simp [hf]
    · simp only [funcsLoop, if_neg hf, if_neg hne, List.filter_cons]
      rw [ih]
      simp [hf]

theorem funcsLoop_pos {m : Int} (ignore : Finset String) (funcs : List String)
    (n : Nat) (hn : (n : Int) < m) :
    funcsLoop ignore (some m) funcs n =
      (funcs.filter (fun f => decide (f ∉ ignore))).take (m.toNat - n) := by
  induction funcs generalizing n with
  | nil => simp [funcsLoop]
  | cons f fs ih =>
    by_cases hf : f ∈ ignore
    · simp only [funcsLoop, if_pos hf, List.filter_cons]
      rw [ih n hn]
      simp [hf]
    · by_cases hb : m = ((n + 1 : Nat) : Int)
      · have hbeq : some m = some ((n + 1 : Nat) : Int) := by rw [hb]
        have h1 : m.toNat - n = 1 := by omega
        simp only [funcsLoop, if_neg hf, if_pos hbeq, List.filter_cons, h1]
        simp [hf]
      · have hbeq : ¬(some m = some ((n + 1 : Nat) : Int)) := by
          simp only [Option.some.injEq]
          exact hb
        have hlt : ((n + 1 : Nat) : Int) < m := by
          push_cast
          push_cast at hn hb
          omega
        have h2 : m.toNat - n = (m.toNat - (n + 1)) + 1 := by omega
        simp only [funcsLoop, if_neg hf, if_neg hbeq, List.filter_cons]
        rw [ih (n + 1) hlt, h2]
        simp [hf, List.take_succ_cons]

/-! ## Step lemmas for the `get_metadata` loop -/

theorem processKey_no_colon (cache : MetaCache) (ignore : Finset String) (address : Nat)
    (record : Record) {k : String} (st : QState) (h : ':' ∉ k.data) :
    processKey cache ignore address record k st =
      processKeyCore cache ignore address record k none st := by
  unfold processKey
  rw [splitKey_no_colon h]

theorem processKeyCore_absent (cache : MetaCache) (ignore : Finset String) (address : Nat)
    (record : Record) {k : String} (st : QState)
    (hk : alookup k record = none) (hc : k ≠ "color") :
    processKeyCore cache ignore address record k none st =
      .ok ⟨st.L ++ [.noneV], st.suffix ++ " | N/A",
           st.epilog ++ "'" ++ k ++ "' key not found in metadata database\n",
           st.colorize, true⟩ := by
  unfold processKeyCore
  rw [hk]
  simp [hc]

theorem processKeyCore_plain (cache : MetaCache) (ignore : Finset String) (address : Nat)
    (record : Record) {k : String} {v : PyVal} (st : QState)
    (hv : alookup k record = some v) (hbt : k ≠ "backtrace") (hc : k ≠ "color") :
    processKeyCore cache ignore address record k none st =
      .ok ⟨st.L ++ [v], st.suffix ++ " | " ++ pyStr v,
           st.epilog ++ pyStr v ++ "\n", st.colorize, true⟩ := by
  unfold processKeyCore
  rw [hv]
  simp [hbt, hc]

theorem processKeyCore_color (cache : MetaCache) (ignore : Finset String) (address : Nat)
    (record : Record) {c : String} (st : QState)
    (hv : alookup "color" record = some (.strV c)) (hmem : c ∈ colorize_table) :
    processKeyCore cache ignore address record "color" none st =
      .ok { st with colorize := .colored c } := by
  unfold processKeyCore
  rw [hv]
  have hbt : ("color" : String) ≠ "backtrace" := by decide
  simp [hbt, hmem]

theorem processKeys_append (cache : MetaCache) (ignore : Finset String) (address : Nat)
    (record : Record) (l1 l2 : List String) (st : QState) :
    processKeys cache ignore address record (l1 ++ l2) st =
      match processKeys cache ignore address record l1 st with
      | .error e => .error e
      | .ok st' => processKeys cache ignore address record l2 st' := by
  induction l1 generalizing st with
  | nil => simp [processKeys]
  | cons k ks ih =>
    simp only [List.cons_append, processKeys]
    cases processKey cache ignore address record k st with
    | error e => rfl
    | ok st' => exact ih st'

/-- Processing a list of colon-free, present, non-backtrace keys succeeds
and appends, for each non-color key, the stored value to the structured
list (color keys contribute nothing to it). -/
theorem processKeys_plain (cache : MetaCache) (ignore : Finset String) (address : Nat)
    (record : Record) (ks : List String) (st : QState)
    (h : ∀ k ∈ ks, ':' ∉ k.data ∧ k ≠ "backtrace" ∧
      ∃ v, alookup k record = some v ∧
        (k = "color" → ∃ c, v = PyVal.strV c ∧ c ∈ colorize_table)) :
    ∃ st', processKeys cache ignore address record ks st = .ok st' ∧
      st'.L = st.L ++
        ks.filterMap (fun k => if k = "color" then none else alookup k record) := by
  induction ks generalizing st with
  | nil => exact ⟨st, rfl, by simp [processKeys]⟩
  | cons k ks ih =>
    obtain ⟨hcolon, hbt, v, hv, hcol⟩ := h k (List.mem_cons_self _ _)
    have hrest : ∀ k' ∈ ks, ':' ∉ k'.data ∧ k' ≠ "backtrace" ∧
        ∃ v', alookup k' record = some v' ∧
          (k' = "color" → ∃ c, v' = PyVal.strV c ∧ c ∈ colorize_table) :=
      fun k' hk' => h k' (List.mem_cons_of_mem _ hk')
    by_cases hc : k = "color"
    · subst hc
      obtain ⟨c, rfl, hmem⟩ := hcol rfl
      have hstep := processKeyCore_color cache ignore address record st hv hmem
      obtain ⟨st', hrun, hL⟩ := ih { st with colorize := .colored c } hrest
      refine ⟨st', ?_, ?_⟩
      · simp only [processKeys, processKey_no_colon cache ignore address record st hcolon,
          hstep]
        exact hrun
      · simp [hL, List.filterMap_cons]
    · have hstep := processKeyCore_plain cache ignore address record st hv hbt hc
      obtain ⟨st', hrun, hL⟩ :=
        ih ⟨st.L ++ [v], st.suffix ++ " | " ++ pyStr v,
            st.epilog ++ pyStr v ++ "\n", st.colorize, true⟩ hrest
      refine ⟨st', ?_, ?_⟩
      · simp only [processKeys, processKey_no_colon cache ignore address record st hcolon,
          hstep]
        exact hrun
      · simp only [hL, List.filterMap_cons, if_neg hc, hv]
        simp

/-- With distinct keys, looking each non-`"backtrace"` key of a record
back up (skipping `"color"`) yields exactly the values of the
non-color, non-backtrace fields, in record order. -/
theorem keys_filterMap (record : Record) (hnd : (record.map Prod.fst).Nodup) :
    ((record.map Prod.fst).filter (fun k => k != "backtrace")).filterMap
        (fun k => if k = "color" then none else alookup k record)
      = (record.filter (fun kv => kv.1 != "color" && kv.1 != "backtrace")).map Prod.snd := by
  induction record with
  | nil => rfl
  | cons kv rest ih =>
    obtain ⟨a, b⟩ := kv
    simp only [List.map_cons, List.nodup_cons] at hnd
    obtain ⟨ha, hndr⟩ := hnd
    have hcong : ((rest.map Prod.fst).filter (fun k => k != "backtrace")).filterMap
        (fun k => if k = "color" then none else alookup k ((a, b) :: rest)) =
        ((rest.map Prod.fst).filter (fun k => k != "backtrace")).filterMap
        (fun k => if k = "color" then none else alookup k rest) := by
      apply List.filterMap_congr
      intro k hk
      have hk' : k ∈ rest.map Prod.fst := (List.mem_filter.mp hk).1
      have hka : k ≠ a := fun he => ha (he ▸ hk')
      rw [alookup_cons_ne _ _ hka]
    by_cases hab : a = "backtrace"
    · subst hab
      simp only [List.map_cons, List.filter_cons, bne_self_eq_false, Bool.and_false,
        Bool.false_eq_true, if_false]
      rw [hcong, ih hndr]
    · by_cases hac : a = "color"
      · subst hac
        have h1 : (("color" : String) != "backtrace") = true := by decide
        simp only [List.map_cons, List.filter_cons, h1, if_true, List.filterMap_cons,
          bne_self_eq_false, Bool.false_and, Bool.false_eq_true, if_false]
        rw [hcong, ih hndr]
      · have hL1 : (List.map Prod.fst ((a, b) :: rest)).filter (fun k => k != "backtrace")
            = a :: (rest.map Prod.fst).filter (fun k => k != "backtrace") := by
          simp [List.filter_cons, bne_iff_ne, hab]
        have hR1 : ((a, b) :: rest).filter (fun kv => kv.1 != "color" && kv.1 != "backtrace")
            = (a, b) :: rest.filter (fun kv => kv.1 != "color" && kv.1 != "backtrace") := by
          simp [List.filter_cons, bne_iff_ne, hab, hac]
        have hself : alookup a ((a, b) :: rest) = some b := by simp [alookup]
        rw [hL1, hR1, List.filterMap_cons, List.map_cons, if_neg hac, hself, hcong, ih hndr]

/-- Processing the rewritten `"backtrace:-1"` spec on a record whose
backtrace field holds a capture dict: the structured list gets the frames
filtered by the ignore set without truncation, the epilog gets the raw
capture text, and the entry is opened. -/
theorem processKey_btneg1 (cache : MetaCache) (ignore : Finset String) (address : Nat)
    (record : Record) {raw : String} {funcs : List String} (st : QState)
    (hrec : alookup address cache = some record)
    (hbt : alookup "backtrace" record = some (.dictV raw funcs)) :
    processKey cache ignore address record "backtrace:-1" st =
      .ok ⟨st.L ++ [.listV (funcs.filter (fun f => decide (f ∉ ignore)))],
           (match funcs.filter (fun f => decide (f ∉ ignore)) with
            | [] => st.suffix ++ " | filtered"
            | f :: fs => st.suffix ++ " | " ++ String.intercalate "," (f :: fs)),
           st.epilog ++ raw, st.colorize, true⟩ := by
  have hsplit : splitKey "backtrace:-1" = .ok ("backtrace", some "-1") := rfl
  unfold processKey
  rw [hsplit]
  show processKeyCore cache ignore address record "backtrace" (some "-1") st = _
  unfold processKeyCore
  rw [hbt]
  have hparse : parsePyInt "-1" = some (-1) := rfl
  have hgf : get_functions cache ignore address (some (-1)) =
      .ok (some (funcs.filter (fun f => decide (f ∉ ignore)))) := by
    simp only [get_functions, hrec, hbt,
      funcsLoop_nonpos (show (-1 : Int) ≤ 0 by norm_num)]
  simp only [hparse, hgf, if_pos rfl]
  cases hfl : funcs.filter (fun f => decide (f ∉ ignore)) with
  | nil => simp [pyOfFuncs]
  | cons f fs => simp [pyOfFuncs]

/-- C1 (amended): for a record with distinct, colon-free field names whose
`"backtrace"` field (if any) holds a capture dict and whose `"color"`
field (if any) holds a palette member, `query(a, "all")` succeeds and its
structured list holds the values of the record's non-color fields in
first-insertion order, except that `"backtrace"` is moved to the end and
resolved without truncation (the ignore-set filter still applies); a
`"color"` field contributes no structured entry. -/
theorem c1_all_query (cache : MetaCache) (ignore : Finset String) (address : Nat)
    (record : Record)
    (hrec : alookup address cache = some record)
    (hnd : (record.map Prod.fst).Nodup)
    (hcolon : ∀ kv ∈ record, ':' ∉ (Prod.fst kv).data)
    (hbtv : ∀ kv ∈ record, Prod.fst kv = "backtrace" →
      ∃ raw funcs, Prod.snd kv = PyVal.dictV raw funcs)
    (hcolv : ∀ kv ∈ record, Prod.fst kv = "color" →
      ∃ c, Prod.snd kv = PyVal.strV c ∧ c ∈ colorize_table) :
    (get_metadata cache ignore address .allSentinel).map QueryOut.L =
      .ok (some ((record.filter (fun kv => kv.1 != "color" && kv.1 != "backtrace")).map Prod.snd
        ++ (match alookup "backtrace" record with
            | some (PyVal.dictV _ funcs) =>
              [PyVal.listV (funcs.filter (fun f => decide (f ∉ ignore)))]
            | _ => []))) := by
  have hkey : ∀ k ∈ record.map Prod.fst, k ≠ "backtrace" →
      ':' ∉ k.data ∧ k ≠ "backtrace" ∧
        ∃ v, alookup k record = some v ∧
          (k = "color" → ∃ c, v = PyVal.strV c ∧ c ∈ colorize_table) := by
    intro k hk hkbt
    obtain ⟨v, hv⟩ := alookup_isSome_of_mem_keys hk
    have hmem := alookup_mem hv
    refine ⟨hcolon _ hmem, hkbt, v, hv, ?_⟩
    intro hkc
    exact hcolv _ hmem hkc
  simp only [get_metadata, hrec]
  by_cases hbt : "backtrace" ∈ record.map Prod.fst
  · rw [if_pos hbt]
    obtain ⟨st1, hrun1, hL1⟩ := processKeys_plain cache ignore address record
      ((record.map Prod.fst).erase "backtrace") ⟨[], "", "", .ident, false⟩
      (by
        intro k hk
        have hk' := (List.Nodup.mem_erase_iff hnd).mp hk
        exact hkey k hk'.2 hk'.1)
    obtain ⟨vbt, hvbt⟩ := alookup_isSome_of_mem_keys hbt
    obtain ⟨raw, funcs, hshape⟩ := hbtv _ (alookup_mem hvbt) rfl
    simp only at hshape
    subst hshape
    have hbtstep := processKey_btneg1 cache ignore address record st1 hrec hvbt
    rw [processKeys_append, hrun1]
    simp only [processKeys, hbtstep, hvbt, Except.map]
    have herase : (record.map Prod.fst).erase "backtrace"
        = (record.map Prod.fst).filter (fun k => k != "backtrace") :=
      List.Nodup.erase_eq_filter hnd _
    rw [hL1, herase, keys_filterMap record hnd]
    cases hfl : funcs.filter (fun f => decide (f ∉ ignore)) with
    | nil => simp
    | cons f fs => simp
  · rw [if_neg hbt]
    obtain ⟨st1, hrun1, hL1⟩ := processKeys_plain cache ignore address record
      (record.map Prod.fst) ⟨[], "", "", .ident, false⟩
      (fun k hk => hkey k hk (fun he => hbt (he ▸ hk)))
    have hnone : alookup "backtrace" record = none := alookup_eq_none_of_not_mem_keys hbt
    have hfeq : (record.map Prod.fst).filter (fun k => k != "backtrace")
        = record.map Prod.fst := by
      rw [List.filter_eq_self]
      intro k hk
      have hne : k ≠ "backtrace" := fun he => hbt (he ▸ hk)
      simpa [bne_iff_ne] using hne
    rw [hrun1]
    simp only [Except.map, hnone]
    rw [hL1, ← hfeq, keys_filterMap record hnd]
    simp

/-! ## Claim C1 -/

/-- C1 counterexample: on a record whose fields were inserted as
`backtrace` then `tag`, the code returns the structured list in the order
`[tag value, resolved backtrace]`, while the claim predicts first-insertion
order `[resolved backtrace, tag value]` (`claimAllL`). -/
theorem c1_counterexample :
    (get_metadata [(32, [("backtrace", PyVal.dictV "raw" ["f1"]), ("tag", PyVal.strV "t")])]
        ∅ 32 .allSentinel).map QueryOut.L
      = .ok (some [PyVal.strV "t", PyVal.listV ["f1"]]) ∧
    claimAllL ∅ [("backtrace", PyVal.dictV "raw" ["f1"]), ("tag", PyVal.strV "t")]
      = [PyVal.listV ["f1"], PyVal.strV "t"] ∧
    ([PyVal.strV "t", PyVal.listV ["f1"]] : List PyVal)
      ≠ [PyVal.listV ["f1"], PyVal.strV "t"] := by
  refine ⟨by decide, by decide, by decide⟩

/-- C1 witness: concrete instance of `c1_all_query` on a three-field
record (`tag`, `backtrace`, `note`) with `f1` ignored. -/
theorem c1_witness :
    (get_metadata
        [(48, [("tag", PyVal.strV "x"), ("backtrace", PyVal.dictV "raw" ["f1", "f2"]),
               ("note", PyVal.strV "y")])]
        ({"f1"} : Finset String) 48 .allSentinel).map QueryOut.L
      = .ok (some [PyVal.strV "x", PyVal.strV "y", PyVal.listV ["f2"]]) := by
  have h := c1_all_query
    [(48, [("tag", PyVal.strV "x"), ("backtrace", PyVal.dictV "raw" ["f1", "f2"]),
           ("note", PyVal.strV "y")])]
    ({"f1"} : Finset String) 48
    [("tag", PyVal.strV "x"), ("backtrace", PyVal.dictV "raw" ["f1", "f2"]),
     ("note", PyVal.strV "y")]
    rfl (by decide) (by decide)
    (by
      intro kv hkv hk
      simp only [List.mem_cons, List.not_mem_nil, or_false] at hkv
      rcases hkv with rfl | rfl | rfl
      · exact absurd hk (by decide)
      · exact ⟨"raw", ["f1", "f2"], rfl⟩
      · exact absurd hk (by decide))
    (by
      intro kv hkv hk
      simp only [List.mem_cons, List.not_mem_nil, or_false] at hkv
      rcases hkv with rfl | rfl | rfl
      · exact absurd hk (by decide)
      · exact absurd hk (by decide)
      · exact absurd hk (by decide))
  rw [h]
  decide

/-! ## Claim C2 -/

/-- C2 (amended): `get_functions` returns the record's frames with the
ignored names dropped (order preserved), truncated to the first `m`
entries when the requested `max_len` is `m ≥ 1`; a `max_len` of `None` or
any `m ≤ 0` (so in particular the unlimited sentinel `-1`, but also `0`)
means no truncation. -/
theorem c2_get_functions_filter (cache : MetaCache) (ignore : Finset String)
    (address : Nat) (record : Record) {raw : String} {funcs : List String}
    (p : Option Int)
    (hrec : alookup address cache = some record)
    (hbt : alookup "backtrace" record = some (.dictV raw funcs)) :
    get_functions cache ignore address p =
      .ok (some (match p with
        | none => funcs.filter (fun f => decide (f ∉ ignore))
        | some m =>
          if 1 ≤ m then (funcs.filter (fun f => decide (f ∉ ignore))).take m.toNat
          else funcs.filter (fun f => decide (f ∉ ignore)))) := by
  simp only [get_functions, hrec, hbt]
  cases p with
  | none => rw [funcsLoop_no_max]
  | some m =>
    dsimp only
    by_cases hm : 1 ≤ m
    · have h0 : ((0 : Nat) : Int) < m := by omega
      rw [funcsLoop_pos ignore funcs 0 h0, if_pos hm]
      simp
    · rw [funcsLoop_nonpos (by omega), if_neg hm]

/-- C2 counterexample: with `maxFrames = 0` the claim's resolver
(`resolveSpec`, "truncate to the first maxFrames entries") yields `[]`,
but the code's loop never hits its break condition and returns every
frame. -/
theorem c2_counterexample :
    get_functions [(32, [("backtrace", PyVal.dictV "raw" ["f1"])])] ∅ 32 (some 0)
      = .ok (some ["f1"]) ∧
    resolveSpec ∅ ["f1"] 0 = [] ∧
    (["f1"] : List String) ≠ [] := by
  refine ⟨by decide, by decide, by decide⟩

/-- C2 witness: the spec's own scenario — frames `[f1, f2, f3]`, IgnoreSet
`{f2}`, `maxFrames = 2` — resolves to `[f1, f3]`. -/
theorem c2_witness :
    get_functions [(32, [("backtrace", PyVal.dictV "raw" ["f1", "f2", "f3"])])]
        ({"f2"} : Finset String) 32 (some 2) = .ok (some ["f1", "f3"]) := by
  have h := c2_get_functions_filter
    [(32, [("backtrace", PyVal.dictV "raw" ["f1", "f2", "f3"])])]
    ({"f2"} : Finset String) 32
    [("backtrace", PyVal.dictV "raw" ["f1", "f2", "f3"])] (some 2) rfl rfl
  rw [h]
  decide

/-! ## Claim C3 -/

/-- C3 (amended): for every key `k` other than `"color"` and
`"backtrace"` that contains no `':'`, after `add(a, k, v)` (which always
succeeds for such keys), `query(a, [k])` returns `v` as the sole
structured entry. -/
theorem c3_add_then_query (dbg : String × List String) (s : Session)
    (ignore : Finset String) (address : Nat) (k : String) (v : String)
    (hbt : k ≠ "backtrace") (hc : k ≠ "color") (hcolon : ':' ∉ k.data) :
    (get_metadata (add_metadata dbg s address k (some v)).1.meta_cache ignore address
        (.specs [k])).map QueryOut.L = .ok (some [PyVal.strV v]) := by
  have hadd : (add_metadata dbg s address k (some v)).1.meta_cache
      = dictInsert address
          (dictInsert k (PyVal.strV v) ((alookup address s.meta_cache).getD []))
          s.meta_cache := by
    unfold add_metadata
    simp [hbt, hc]
  rw [hadd]
  have hrec := alookup_dictInsert_self address
    (dictInsert k (PyVal.strV v) ((alookup address s.meta_cache).getD []))
    s.meta_cache
  have hkv := alookup_dictInsert_self k (PyVal.strV v)
    ((alookup address s.meta_cache).getD [])
  simp only [get_metadata, hrec]
  simp only [processKeys,
    processKey_no_colon _ ignore address _ ⟨[], "", "", .ident, false⟩ hcolon,
    processKeyCore_plain _ ignore address _ ⟨[], "", "", .ident, false⟩ hkv hbt hc,
    Except.map, List.nil_append]

/-- C3 counterexample: the key `"t:u"` (allowed by the claim, which only
excludes `"color"` and `"backtrace"`) is stored verbatim by `add`, but
`query` splits it at the colon and looks up `"t"`, so the sole structured
entry is the null placeholder, not the stored value. -/
theorem c3_counterexample :
    (get_metadata (add_metadata ("", []) ⟨[], ∅⟩ 0 "t:u" (some "v")).1.meta_cache ∅ 0
        (.specs ["t:u"])).map QueryOut.L = .ok (some [PyVal.noneV]) ∧
    ([PyVal.noneV] : List PyVal) ≠ [PyVal.strV "v"] := by
  refine ⟨by decide, by decide⟩

/-- C3 witness: concrete instance of `c3_add_then_query` — after
`add(0x10, "tag", "srv")`, `query(0x10, ["tag"])` returns `["srv"]`. -/
theorem c3_witness :
    (get_metadata (add_metadata ("", []) ⟨[], ∅⟩ 16 "tag" (some "srv")).1.meta_cache ∅ 16
        (.specs ["tag"])).map QueryOut.L = .ok (some [PyVal.strV "srv"]) :=
  c3_add_then_query ("", []) ⟨[], ∅⟩ ∅ 16 "tag" "srv" (by decide) (by decide) (by decide)

/-! ## Claim C4 -/

/-- C4: `add(address, "color", value)` with a value outside the 16-entry
palette reports an error and performs no mutation: the session (store
included) is returned unchanged. -/
theorem c4_invalid_color (dbg : String × List String) (s : Session) (address : Nat)
    (v : String) (hv : v ∉ colorize_table) :
    add_metadata dbg s address "color" (some v) = (s, false) := by
  have h1 : ("color" : String) ≠ "backtrace" := by decide
  simp [add_metadata, h1, hv]

/-- C4 witness: the spec's scenario — `add(0x10, "color", "green")` then
`add(0x10, "color", "ultraviolet")`: the second call is rejected with no
mutation and the stored color stays `"green"`. -/
theorem c4_witness :
    "ultraviolet" ∉ colorize_table ∧
    add_metadata ("", []) (add_metadata ("", []) ⟨[], ∅⟩ 16 "color" (some "green")).1 16
        "color" (some "ultraviolet")
      = ((add_metadata ("", []) ⟨[], ∅⟩ 16 "color" (some "green")).1, false) ∧
    alookup "color"
        ((alookup 16 (add_metadata ("", []) ⟨[], ∅⟩ 16 "color" (some "green")).1.meta_cache).getD [])
      = some (PyVal.strV "green") :=
  ⟨by decide,
   c4_invalid_color ("", []) (add_metadata ("", []) ⟨[], ∅⟩ 16 "color" (some "green")).1 16
     "ultraviolet" (by decide),
   by decide⟩

/-! ## Claim C5 -/

/-- C5: for an address with no record, `get_metadata` returns the
quadruple `(None, "", "chunk address not found in metadata database\n",
identity)` for every field-spec argument, and raises no error. -/
theorem c5_unknown_address (cache : MetaCache) (ignore : Finset String) (address : Nat)
    (arg : ListMetadataArg) (h : alookup address cache = none) :
    get_metadata cache ignore address arg =
      .ok ⟨none, "", "chunk address not found in metadata database\n", .ident⟩ := by
  unfold get_metadata
  rw [h]

/-- C5 witness: querying an empty store. -/
theorem c5_witness :
    get_metadata [] ∅ 0 (.specs ["tag", "backtrace"]) =
      .ok ⟨none, "", "chunk address not found in metadata database\n", .ident⟩ :=
  c5_unknown_address [] ∅ 0 (.specs ["tag", "backtrace"]) rfl

/-! ## Claim C6 -/

/-- C6: `configure(feature, key, values)` unions `values` into the ignore
set exactly when `(feature, key) = ("ignore", "backtrace")`; every other
combination reports an error and leaves the session (ignore set and store)
unchanged. -/
theorem c6_configure (s : Session) (feature key : String) (values : List String) :
    (feature = "ignore" ∧ key = "backtrace" →
      configure_metadata s feature key values =
        ({ s with backtrace_ignore := s.backtrace_ignore ∪ values.toFinset }, true)) ∧
    (¬(feature = "ignore" ∧ key = "backtrace") →
      configure_metadata s feature key values = (s, false)) := by
  constructor
  · rintro ⟨rfl, rfl⟩
    simp [configure_metadata]
  · intro h
    unfold configure_metadata
    by_cases hk : key = "backtrace"
    · subst hk
      have hf : feature ≠ "ignore" := fun he => h ⟨he, rfl⟩
      simp [hf]
    · simp [hk]

/-- C6 witness: `config ignore backtrace f` unions `{f}` in; `config
ignore color f` is rejected and changes nothing. -/
theorem c6_witness :
    configure_metadata ⟨[], ∅⟩ "ignore" "backtrace" ["f"]
      = (⟨[], ({"f"} : Finset String)⟩, true) ∧
    configure_metadata ⟨[], ∅⟩ "ignore" "color" ["f"] = (⟨[], ∅⟩, false) := by
  constructor
  · have h := (c6_configure ⟨[], ∅⟩ "ignore" "backtrace" ["f"]).1 ⟨rfl, rfl⟩
    rw [h]
    decide
  · exact (c6_configure ⟨[], ∅⟩ "ignore" "color" ["f"]).2 (by decide)

/-! ## Claim C7 -/

/-- C7 (the code as it is): `add` with a key other than `"backtrace"` and
no value does NOT abort — the argument parser admits a missing value
(`nargs="?"`) and `add_metadata` stores Python `None` under the key,
creating the record. This contradicts the command's own help text
("required except when adding a backtrace") and the claim. -/
theorem c7_missing_value_mutates :
    add_metadata ("", []) ⟨[], ∅⟩ 16 "tag" none
      = (⟨[(16, [("tag", PyVal.noneV)])], ∅⟩, true) := by
  decide

/-! ## Claim C8 -/

/-- `add_metadata` never touches the ignore set. -/
theorem add_metadata_ignore (dbg : String × List String) (s : Session) (a : Nat)
    (k : String) (v : Option String) :
    (add_metadata dbg s a k v).1.backtrace_ignore = s.backtrace_ignore := by
  by_cases h1 : k = "backtrace"
  · simp [add_metadata, h1]
  · by_cases h2 : k = "color"
    · cases v with
      | none => simp [add_metadata, h1, h2]
      | some c =>
        by_cases h3 : c ∈ colorize_table <;> simp [add_metadata, h1, h2, h3]
    · simp [add_metadata, h1, h2]

/-- `delete_metadata` never touches the ignore set. -/
theorem delete_metadata_ignore (s : Session) (a : Nat) :
    (delete_metadata s a).backtrace_ignore = s.backtrace_ignore := by
  unfold delete_metadata
  split <;> rfl

/-- C8 (amended): across every sequence of `add` / `del` / `config` /
`list` / save invocations the ignore set is monotonically non-decreasing,
and a `config ignore backtrace` whose names are all already present leaves
it unchanged; the development-only snapshot load (`-L`) is excluded, since
it replaces the ignore set wholesale. -/
theorem c8_ignore_monotone :
    (∀ (s : Session) (op : Op), (∀ sv, op ≠ Op.loadOp sv) →
      s.backtrace_ignore ⊆ (step s op).backtrace_ignore) ∧
    (∀ (s : Session) (f : String) (vs : List String),
      (∀ v ∈ vs, v ∈ s.backtrace_ignore) →
      (step s (Op.configOp f "backtrace" vs)).backtrace_ignore = s.backtrace_ignore) := by
  constructor
  · intro s op hop
    cases op with
    | addOp dbg a k v =>
      show s.backtrace_ignore ⊆ (add_metadata dbg s a k v).1.backtrace_ignore
      rw [add_metadata_ignore]
    | delOp a =>
      show s.backtrace_ignore ⊆ (delete_metadata s a).backtrace_ignore
      rw [delete_metadata_ignore]
    | configOp f k vs =>
      unfold step configure_metadata
      by_cases hk : k = "backtrace"
      · subst hk
        by_cases hf : f = "ignore"
        · simp [hf, Finset.subset_union_left]
        · simp [hf]
      · simp [hk]
    | listOp => exact fun x hx => hx
    | saveOp => exact fun x hx => hx
    | loadOp sv => exact absurd rfl (hop sv)
  · intro s f vs hsub
    unfold step configure_metadata
    by_cases hf : f = "ignore"
    · have hu : s.backtrace_ignore ∪ vs.toFinset = s.backtrace_ignore := by
        apply Finset.union_eq_left.mpr
        intro v hv
        exact hsub v (List.mem_toFinset.mp hv)
      simp [hf, hu]
    · simp [hf]

/-- C8 counterexample: the snapshot-load invocation (`ptmeta -L`) replaces
`backtrace_ignore` with the file's contents, which can drop names — here
`"f"` is in the ignore set before the load and gone after. -/
theorem c8_counterexample :
    "f" ∈ (Session.mk [] {"f"}).backtrace_ignore ∧
    "f" ∉ (step (Session.mk [] {"f"}) (Op.loadOp (Session.mk [] ∅))).backtrace_ignore := by
  refine ⟨by decide, by decide⟩

/-- C8 witness: a config union grows the set, and re-adding a present
name is a no-op. -/
theorem c8_witness :
    ({"a"} : Finset String) ⊆
      (step (Session.mk [] {"a"}) (Op.configOp "ignore" "backtrace" ["b"])).backtrace_ignore ∧
    (step (Session.mk [] {"a"}) (Op.configOp "ignore" "backtrace" ["a"])).backtrace_ignore
      = ({"a"} : Finset String) :=
  ⟨c8_ignore_monotone.1 (Session.mk [] {"a"}) (Op.configOp "ignore" "backtrace" ["b"])
     (fun sv h => Op.noConfusion h),
   c8_ignore_monotone.2 (Session.mk [] {"a"}) "ignore" ["a"] (by decide)⟩

/-! ## Claim C9 -/

/-- C9 (amended): for an address that has a record (whose color, if set,
is a palette member), `query(address, ["color"])` yields an empty
structured list, an empty suffix and an empty epilog; a present color only
selects the returned colorizer and an absent color is silently skipped.
(For an address with no record the structured result is `None`, not an
empty list — see the counterexample.) -/
theorem c9_color_only (cache : MetaCache) (ignore : Finset String) (address : Nat)
    (record : Record)
    (hrec : alookup address cache = some record)
    (hcol : ∀ v, alookup "color" record = some v →
      ∃ c, v = PyVal.strV c ∧ c ∈ colorize_table) :
    get_metadata cache ignore address (.specs ["color"]) =
      .ok ⟨some [], "", "",
        match alookup "color" record with
        | some (PyVal.strV c) => Colorizer.colored c
        | _ => Colorizer.ident⟩ := by
  have hnc : ':' ∉ ("color" : String).data := by decide
  simp only [get_metadata, hrec, processKeys,
    processKey_no_colon cache ignore address record ⟨[], "", "", .ident, false⟩ hnc]
  cases hv : alookup "color" record with
  | none =>
    simp only [processKeyCore, hv, if_pos rfl]
    rfl
  | some v =>
    obtain ⟨c, rfl, hmem⟩ := hcol v hv
    rw [processKeyCore_color cache ignore address record ⟨[], "", "", .ident, false⟩ hv hmem]
    rfl

/-- C9 witness: a record with color `"green"`: empty structured list,
empty suffix, empty epilog, green colorizer. -/
theorem c9_witness :
    get_metadata [(16, [("color", PyVal.strV "green")])] ∅ 16 (.specs ["color"]) =
      .ok ⟨some [], "", "", .colored "green"⟩ := by
  have h := c9_color_only [(16, [("color", PyVal.strV "green")])] ∅ 16
    [("color", PyVal.strV "green")] rfl
    (by
      intro v hv
      refine ⟨"green", ?_, by decide⟩
      have : some (PyVal.strV "green") = some v := hv
      exact (Option.some.inj this).symm)
  rw [h]
  rfl

/-- C9 counterexample: for an address with no record the claim fails —
the structured result is `None` (absent), not an empty list, and the
epilog is the not-found message rather than empty. -/
theorem c9_counterexample :
    get_metadata [] ∅ 0 (.specs ["color"]) =
      .ok ⟨none, "", "chunk address not found in metadata database\n", .ident⟩ ∧
    (none : Option (List PyVal)) ≠ some [] := by
  refine ⟨by decide, by decide⟩

/-! ## Claim C10 -/

/-- C10: whenever the queried address has a record and that record has a
`"backtrace"` field, `get_functions` never returns the "absent" result
(`None`): absence arises only from a missing address or missing field, so
the `" | N/A"` branch for a present backtrace field is unreachable. -/
theorem c10_resolver_not_absent (cache : MetaCache) (ignore : Finset String)
    (address : Nat) (record : Record) (v : PyVal) (p : Option Int)
    (hrec : alookup address cache = some record)
    (hbt : alookup "backtrace" record = some v) :
    get_functions cache ignore address p ≠ .ok none := by
  simp only [get_functions, hrec, hbt]
  cases v <;> simp

/-- C10 witness: concrete record with a backtrace field. -/
theorem c10_witness :
    get_functions [(32, [("backtrace", PyVal.dictV "raw" ["f1"])])] ∅ 32 none
      ≠ .ok none :=
  c10_resolver_not_absent [(32, [("backtrace", PyVal.dictV "raw" ["f1"])])] ∅ 32
    [("backtrace", PyVal.dictV "raw" ["f1"])] (PyVal.dictV "raw" ["f1"]) none rfl rfl
